import Mathlib

/-!
Verification of the render/effect contract of the `react-hooks-use-effect`
lesson repository.  The repository ships two React components:

* `src/DogPics.js` — a component holding one state cell `images`
  (initialised to `[]`) whose effect, registered with **no** dependency
  list, fetches three random dog images and calls `setImages` with the
  payload's `message` field, producing an unbounded render/fetch loop.
* an `App` (ClickButton) component registering one effect with no
  dependency list whose callback only logs, rendering a static button.

The host framework (React's `useState`/`useEffect` semantics) is not part
of the repository's sources; its dependency-comparison rule and its
single-threaded commit/effect/update dispatcher are modelled from the
spec's description.  Everything about the two components themselves is
translated directly from the JavaScript sources.
-/

/-! ## Host framework: effect slots and the dependency-comparison rule -/

/-- Modelled from the spec: the per-slot record the host keeps for one
positionally-stable effect registration of a component instance: the
dependency list supplied at the previous render (`none` when the effect was
registered without one), whether a first render has already committed, and
how many times the callback has run. -/
structure EffectSlot (V : Type) where
  prevDeps : Option (List V) := none
  hasRendered : Bool := false
  runCount : Nat := 0
  deriving DecidableEq

/-- Modelled from the spec: the host's decision whether the effect callback
runs at this commit.  If the registration has no dependency list the
callback always runs; if it has one, the host compares it with the previous
render's list for the slot: unchanged means skip, changed or first render
means run. -/
def hostDecides {V : Type} [DecidableEq V] (slot : EffectSlot V)
    (deps : Option (List V)) : Bool :=
  match deps with
  | none => true
  | some ds =>
    if slot.hasRendered then
      match slot.prevDeps with
      | none => true
      | some ps => if ps = ds then false else true
    else true

/-- Modelled from the spec: one commit of the instance as seen by a single
effect slot: the host decides per `hostDecides`, runs the callback when the
decision is positive, and stores the newly supplied dependency list for the
next comparison. -/
def commitSlot {V : Type} [DecidableEq V] (slot : EffectSlot V)
    (deps : Option (List V)) : EffectSlot V :=
  { prevDeps := deps
    hasRendered := true
    runCount := slot.runCount + (if hostDecides slot deps then 1 else 0) }

/-- Modelled from the spec: the slot after `n` commits of an instance that
registers the same dependency list `deps` at every render. -/
def commitN {V : Type} [DecidableEq V] (deps : Option (List V)) : Nat → EffectSlot V
  | 0 => {}
  | n + 1 => commitSlot (commitN deps n) deps

/-! ## Output trees and component invocations (from the sources) -/

/-- Declarative output nodes produced by the two components: `DogPics`
returns a `div` of `img` elements (each with a `src` and a `key`
attribute), `App` returns a `button` with a text label. -/
inductive Node where
  | div (children : List Node)
  | img (src : String) (key : String)
  | button (label : String)

/-- The children of a node (empty for leaf elements). -/
def Node.children : Node → List Node
  | .div cs => cs
  | _ => []

/-- The parsed JSON payload shape returned by the dog-picture API:
`\x7b message: sequence of string \x7d`. -/
structure Json where
  message : List String
  deriving DecidableEq

/-- Operations a registered effect callback performs when it runs. -/
inductive EffectOp where
  | log (msg : String)
  | fetchJson (url : String) (resolveLog : String) (onResolve : Json → List String)

/-- One invocation of a component function: the state cells it allocates
(with their initial values), the effect registrations (dependency list and
callback body) it makes, the message it logs during render, and the output
tree it returns. -/
structure Invocation where
  stateInits : List (List String)
  effects : List (Option (List String) × List EffectOp)
  renderLog : String
  output : Node

/-- The random-dog-image API endpoint requesting `n` images. -/
def dogApiRandomEndpoint (n : Nat) : String :=
  "https://dog.ceo/api/breeds/image/random/" ++ toString n

/-- The URL `DogPics` fetches, from `src/DogPics.js`. -/
def dogApiUrl : String := "https://dog.ceo/api/breeds/image/random/3"

/-- The `DogPics` component function from `src/DogPics.js`, as the
invocation it performs given the current value of its `images` state cell:
one `useState([])` cell; one `useEffect` with no dependency list whose
callback logs, fetches the dog API and, on resolution, logs and calls
`setImages data.message`; a render log; and a `div` of one `img` per image
with `src` and `key` both the image string. -/
def DogPics (images : List String) : Invocation :=
  { stateInits := [[]]
    effects := [(none,
      [EffectOp.log "useEffect",
       EffectOp.fetchJson dogApiUrl "setState" (fun data => data.message)])]
    renderLog := "render"
    output := Node.div (images.map fun image => Node.img image image) }

/-- The `App` (ClickButton) component function from the lesson, as the
invocation it performs: no state cells, one `useEffect` with no dependency
list whose callback logs a diagnostic, a render log, and a static button. -/
def App : Invocation :=
  { stateInits := []
    effects := [(none, [EffectOp.log "useEffect called"])]
    renderLog := "Component rendering"
    output := Node.button "Click Me" }

/-! ## The DogPics render/fetch machine -/

/-- The outcome of one in-flight fetch: resolution with a parsed payload,
or rejection. -/
inductive FetchOutcome where
  | resolved (data : Json)
  | rejected
  deriving DecidableEq

/-- The observable state of one mounted `DogPics` instance: the value of
its `images` state cell, its single effect slot, the number of fetch
requests issued so far, and the number of fetches still in flight. -/
structure DogSim where
  images : List String := []
  slot : EffectSlot String := {}
  requests : Nat := 0
  inFlight : Nat := 0
  deriving DecidableEq

/-- One commit of the mounted `DogPics` instance registering dependency
list `deps`: the render tree is produced from the current `images`, then
the host decides whether the effect runs; when it does, a fetch request is
issued (one more request, one more in flight). -/
def dogCommit (deps : Option (List String)) (s : DogSim) : DogSim :=
  { images := s.images
    slot := commitSlot s.slot deps
    requests := s.requests + (if hostDecides s.slot deps then 1 else 0)
    inFlight := s.inFlight + (if hostDecides s.slot deps then 1 else 0) }

/-- Mounting `DogPics`: the state cell starts at the empty list and the
first render commits. -/
def dogMount (deps : Option (List String)) : DogSim :=
  dogCommit deps {}

/-- Delivery of one in-flight fetch's outcome.  Resolution runs the
`then` continuation: `setImages data.message`, which schedules a re-render
that the single-threaded dispatcher commits next.  Rejection is unhandled
in the source, so nothing further happens in that cycle: the fetch merely
leaves flight. -/
def dogDeliver (deps : Option (List String)) (o : FetchOutcome) (s : DogSim) : DogSim :=
  if s.inFlight = 0 then s
  else
    match o with
    | .resolved data =>
        dogCommit deps { s with inFlight := s.inFlight - 1, images := data.message }
    | .rejected => { s with inFlight := s.inFlight - 1 }

/-- A call of the state-update function with value `v`: it sets the state
cell and schedules a re-render, which commits next. -/
def dogSetImages (deps : Option (List String)) (v : List String) (s : DogSim) : DogSim :=
  dogCommit deps { s with images := v }

/-- The defective loop of the lesson: `DogPics` mounted with no dependency
list against a fetch that resolves immediately; `dogLoopNone f n` is the
state after the mount and `n` resolve/re-render cycles, the `k`-th fetch
resolving with payload `f k`. -/
def dogLoopNone (f : Nat → Json) : Nat → DogSim
  | 0 => dogMount none
  | n + 1 => dogDeliver none (.resolved (f n)) (dogLoopNone f n)

/-- The corrected component after its first fetch completes: mount with an
empty dependency list, then the single in-flight fetch resolves with
payload `d`. -/
def dogFixedAfterFetch (d : Json) : DogSim :=
  dogDeliver (some []) (.resolved d) (dogMount (some []))

/-- Repeated identical state updates in the corrected component:
`dogIdemUpdates v k` applies `setImages v` (and the re-render commit it
schedules) `k` times after the first fetch resolved with payload `v`. -/
def dogIdemUpdates (v : List String) : Nat → DogSim
  | 0 => dogFixedAfterFetch ⟨v⟩
  | k + 1 => dogSetImages (some []) v (dogIdemUpdates v k)

/-! ## The single-threaded dispatcher's event order -/

/-- Observable events of the host's dispatcher: the output tree of render
`k` is committed; the effect callback scheduled at commit `k` runs; a state
update enqueued by that callback is processed. -/
inductive HostEvent where
  | committed (k : Nat)
  | effectRan (k : Nat)
  | updateProcessed (k : Nat)
  deriving DecidableEq

/-- Modelled from the spec: the events of one dispatch cycle.  The
dispatcher commits render `k`, then runs the due effect callback (when
`runs`), then processes the state update that callback enqueued (when
`enq`), in that order on one logical thread. -/
def commitBlock (runs enq : Bool) (k : Nat) : List HostEvent :=
  [HostEvent.committed k]
    ++ (if runs then [HostEvent.effectRan k] else [])
    ++ (if runs && enq then [HostEvent.updateProcessed k] else [])

/-- Modelled from the spec: the dispatcher's event trace after `n` commits,
where the effect of commit `k` runs iff `runs k` and enqueues a state
update iff `enq k`. -/
def hostTrace (runs enq : Nat → Bool) : Nat → List HostEvent
  | 0 => []
  | n + 1 => hostTrace runs enq n ++ commitBlock (runs n) (enq n) n

/-- Event `a` occurs strictly before event `b` in trace `t`. -/
def eventBefore (a b : HostEvent) (t : List HostEvent) : Prop :=
  ∃ i j : Nat, i < j ∧ t[i]? = some a ∧ t[j]? = some b

/-! ## Helper lemmas -/

/-- An effect registered without a dependency list is run at every commit,
whatever the slot's history. -/
theorem hostDecides_none {V : Type} [DecidableEq V] (slot : EffectSlot V) :
    hostDecides slot none = true := rfl

/-- With a constant dependency list the slot stabilises after the first
commit: the callback has run once and the list is stored. -/
theorem commitN_some_self {V : Type} [DecidableEq V] (ds : List V) (n : Nat) :
    commitN (some ds) (n + 1) = ⟨some ds, true, 1⟩ := by
  induction n with
  | zero => simp [commitN, commitSlot, hostDecides]
  | succ n ih => rw [commitN, ih]; simp [commitSlot, hostDecides]

/-- The corrected component after its first fetch: images hold the payload,
one request was issued, nothing is in flight, the slot is stable. -/
theorem dogFixedAfterFetch_eq (d : Json) :
    dogFixedAfterFetch d = ⟨d.message, ⟨some [], true, 1⟩, 1, 0⟩ := by
  simp [dogFixedAfterFetch, dogDeliver, dogMount, dogCommit, commitSlot, hostDecides]

/-- In the defective loop, every cycle leaves exactly one fetch in flight
and has issued one request per commit. -/
theorem dogLoopNone_requests (f : Nat → Json) (n : Nat) :
    (dogLoopNone f n).requests = n + 1 ∧ (dogLoopNone f n).inFlight = 1 := by
  induction n with
  | zero => simp [dogLoopNone, dogMount, dogCommit, hostDecides]
  | succ n ih =>
    rw [dogLoopNone]
    simp [dogDeliver, ih.2, dogCommit, hostDecides, ih.1]

/-- Repeated identical updates in the corrected component leave the whole
state fixed. -/
theorem dogIdemUpdates_eq (v : List String) (k : Nat) :
    dogIdemUpdates v k = ⟨v, ⟨some [], true, 1⟩, 1, 0⟩ := by
  induction k with
  | zero => exact dogFixedAfterFetch_eq ⟨v⟩
  | succ k ih => rw [dogIdemUpdates, ih]; simp [dogSetImages, dogCommit, commitSlot, hostDecides]

/-- An ordering within a trace survives appending events after it. -/
theorem eventBefore_append_left {a b : HostEvent} {t u : List HostEvent}
    (h : eventBefore a b t) : eventBefore a b (t ++ u) := by
  obtain ⟨i, j, hij, hi, hj⟩ := h
  have hjl : j < t.length := by
    by_contra hc
    rw [List.getElem?_eq_none (Nat.le_of_not_lt hc)] at hj
    exact Option.noConfusion hj
  exact ⟨i, j, hij, by rw [List.getElem?_append_left (Nat.lt_trans hij hjl)]; exact hi,
    by rw [List.getElem?_append_left hjl]; exact hj⟩

/-- An ordering within a trace survives prepending events before it. -/
theorem eventBefore_append_right {a b : HostEvent} {t u : List HostEvent}
    (h : eventBefore a b u) : eventBefore a b (t ++ u) := by
  obtain ⟨i, j, hij, hi, hj⟩ := h
  refine ⟨t.length + i, t.length + j, by omega, ?_, ?_⟩
  · rw [List.getElem?_append_right (by omega)]
    simpa using hi
  · rw [List.getElem?_append_right (by omega)]
    simpa using hj

/-- Within one dispatch cycle whose effect runs, the commit event precedes
the effect event. -/
theorem commitBlock_commit_before_effect (enq : Bool) (k : Nat) :
    eventBefore (.committed k) (.effectRan k) (commitBlock true enq k) := by
  cases enq <;> exact ⟨0, 1, by omega, rfl, rfl⟩

/-- Within one dispatch cycle whose effect runs and enqueues an update, the
effect event precedes the update-processing event. -/
theorem commitBlock_effect_before_update (k : Nat) :
    eventBefore (.effectRan k) (.updateProcessed k) (commitBlock true true k) :=
  ⟨1, 2, by omega, rfl, rfl⟩

/-! ## Claim theorems -/

/-- C1: for every effect slot of a component instance, the host's decision
whether to run the callback at a commit follows the dependency-list
comparison rule: with no dependency list the callback runs at every commit;
with a list whose values are element-wise equal to the previous render's
list for that slot the callback is skipped; with changed values, or at the
first render, the callback runs. -/
theorem hostDecides_follows_dependency_rule {V : Type} [DecidableEq V]
    (slot : EffectSlot V) :
    hostDecides slot none = true ∧
    ∀ ds : List V,
      (hostDecides slot (some ds) = false ↔
        slot.hasRendered = true ∧ ∃ ps, slot.prevDeps = some ps ∧
          ps.length = ds.length ∧
          ∀ i (h1 : i < ps.length) (h2 : i < ds.length), ps[i] = ds[i]) ∧
      (slot.hasRendered = false → hostDecides slot (some ds) = true) := by
  obtain ⟨pd, hr, rc⟩ := slot
  refine ⟨rfl, fun ds => ⟨?_, ?_⟩⟩
  · cases hr with
    | false => simp [hostDecides]
    | true =>
      cases pd with
      | none => simp [hostDecides]
      | some ps =>
        by_cases hps : ps = ds
        · subst hps
          simp [hostDecides]
        · simp only [hostDecides, if_pos rfl, if_neg hps]
          constructor
          · intro hfalse; exact absurd hfalse (by simp)
          · rintro ⟨-, ps2, hps2, hlen, helem⟩
            obtain rfl : ps = ps2 := Option.some.inj hps2
            exact absurd (List.ext_getElem hlen helem) hps
  · intro hfalse
    subst hfalse
    simp [hostDecides]

/-- C2: a component instance registering an effect without a dependency
list has its callback run exactly `n` times after `n` commits, for every
natural number `n`. -/
theorem no_deps_effect_runs_every_commit {V : Type} [DecidableEq V] (n : Nat) :
    (commitN (none : Option (List V)) n).runCount = n := by
  induction n with
  | zero => rfl
  | succ n ih => simp [commitN, commitSlot, hostDecides, ih]

/-- C3: a component instance registering an effect with an empty dependency
list has its callback run exactly once after any number of commits at least
one; correspondingly, the corrected `DogPics` reaches a terminal state once
the first fetch completes: one request was issued, nothing stays in flight,
the images hold the payload, and a further commit leaves the state
unchanged. -/
theorem empty_deps_effect_runs_once {V : Type} [DecidableEq V] :
    (∀ n : Nat, 1 ≤ n → (commitN (some ([] : List V)) n).runCount = 1) ∧
    ∀ d : Json,
      (dogFixedAfterFetch d).requests = 1 ∧
      (dogFixedAfterFetch d).inFlight = 0 ∧
      (dogFixedAfterFetch d).images = d.message ∧
      dogCommit (some []) (dogFixedAfterFetch d) = dogFixedAfterFetch d := by
  constructor
  · intro n hn
    obtain ⟨m, rfl⟩ : ∃ m, n = m + 1 := ⟨n - 1, by omega⟩
    rw [commitN_some_self]
  · intro d
    rw [dogFixedAfterFetch_eq]
    refine ⟨rfl, rfl, rfl, ?_⟩
    simp [dogCommit, commitSlot, hostDecides]

/-- C4: `DogPics` mounted with no dependency list against a fetch resolving
immediately loops unboundedly: after the mount and `n` resolve/re-render
cycles the request count is `n + 1` and one fetch is always in flight (so
no terminal state is ever reached); after one microtask flush the request
count is at least `2`; and the request count exceeds every bound as commits
continue. -/
theorem dogpics_no_deps_unbounded_loop (f : Nat → Json) :
    (∀ n : Nat, (dogLoopNone f n).requests = n + 1 ∧ (dogLoopNone f n).inFlight = 1) ∧
    2 ≤ (dogLoopNone f 1).requests ∧
    ∀ B : Nat, ∃ n : Nat, B < (dogLoopNone f n).requests := by
  refine ⟨dogLoopNone_requests f, ?_, fun B => ⟨B, ?_⟩⟩
  · rw [(dogLoopNone_requests f 1).1]
  · rw [(dogLoopNone_requests f B).1]
    omega

/-- C5: the ClickButton component (`App`), on every invocation, registers
exactly one effect, with no dependency list, whose callback is the
diagnostic log; an effect registered without a dependency list runs after
every commit including the first; and the rendered output is the static,
stateless button, identical on every invocation. -/
theorem clickbutton_contract :
    App.effects = [(none, [EffectOp.log "useEffect called"])] ∧
    App.stateInits = [] ∧
    (∀ slot : EffectSlot String, hostDecides slot none = true) ∧
    App.output = Node.button "Click Me" :=
  ⟨rfl, rfl, fun _ => rfl, rfl⟩

/-- C6: a rejected fetch in `DogPics` is unhandled: delivery of the
rejection leaves the images, the request count and the effect slot exactly
as they were and only takes the fetch out of flight, scheduling no further
work; yet the loop is not stopped by it, for the very next commit of the
instance (whose effect is registered with no dependency list) runs the
effect again and issues one more request. -/
theorem rejected_fetch_unhandled (s : DogSim) (h : 1 ≤ s.inFlight) :
    (dogDeliver none .rejected s).images = s.images ∧
    (dogDeliver none .rejected s).requests = s.requests ∧
    (dogDeliver none .rejected s).slot = s.slot ∧
    (dogDeliver none .rejected s).inFlight = s.inFlight - 1 ∧
    (dogCommit none (dogDeliver none .rejected s)).requests = s.requests + 1 := by
  have h0 : ¬ s.inFlight = 0 := by omega
  refine ⟨?_, ?_, ?_, ?_, ?_⟩ <;>
    simp [dogDeliver, h0, dogCommit, hostDecides]

/-- Witness for C6 at a concrete state with one fetch in flight. -/
theorem rejected_fetch_unhandled_witness :
    (dogDeliver none .rejected ⟨["a"], ⟨none, true, 1⟩, 1, 1⟩).images =
      (⟨["a"], ⟨none, true, 1⟩, 1, 1⟩ : DogSim).images ∧
    (dogDeliver none .rejected ⟨["a"], ⟨none, true, 1⟩, 1, 1⟩).requests =
      (⟨["a"], ⟨none, true, 1⟩, 1, 1⟩ : DogSim).requests ∧
    (dogDeliver none .rejected ⟨["a"], ⟨none, true, 1⟩, 1, 1⟩).slot =
      (⟨["a"], ⟨none, true, 1⟩, 1, 1⟩ : DogSim).slot ∧
    (dogDeliver none .rejected ⟨["a"], ⟨none, true, 1⟩, 1, 1⟩).inFlight =
      (⟨["a"], ⟨none, true, 1⟩, 1, 1⟩ : DogSim).inFlight - 1 ∧
    (dogCommit none (dogDeliver none .rejected ⟨["a"], ⟨none, true, 1⟩, 1, 1⟩)).requests =
      (⟨["a"], ⟨none, true, 1⟩, 1, 1⟩ : DogSim).requests + 1 :=
  rejected_fetch_unhandled ⟨["a"], ⟨none, true, 1⟩, 1, 1⟩ (by decide)

/-- C7: in the dispatcher's trace, for every commit `k` whose scheduled
effect runs, the effect callback runs strictly after the output tree of
render `k` is committed, and strictly before any state update that callback
enqueues is processed. -/
theorem effect_between_commit_and_update (runs enq : Nat → Bool) (n k : Nat)
    (hk : k < n) (hr : runs k = true) :
    eventBefore (.committed k) (.effectRan k) (hostTrace runs enq n) ∧
    (enq k = true →
      eventBefore (.effectRan k) (.updateProcessed k) (hostTrace runs enq n)) := by
  induction n with
  | zero => omega
  | succ n ih =>
    rw [hostTrace]
    rcases Nat.lt_succ_iff_lt_or_eq.mp hk with h | h
    · exact ⟨eventBefore_append_left (ih h).1,
        fun he => eventBefore_append_left ((ih h).2 he)⟩
    · subst h
      refine ⟨eventBefore_append_right ?_, fun he => eventBefore_append_right ?_⟩
      · rw [hr]
        exact commitBlock_commit_before_effect _ _
      · rw [hr, he]
        exact commitBlock_effect_before_update _

/-- Witness for C7 on a one-commit trace whose effect runs and enqueues an
update. -/
theorem effect_between_commit_and_update_witness :
    eventBefore (.committed 0) (.effectRan 0)
      (hostTrace (fun _ => true) (fun _ => true) 1) ∧
    ((fun _ : Nat => true) 0 = true →
      eventBefore (.effectRan 0) (.updateProcessed 0)
        (hostTrace (fun _ => true) (fun _ => true) 1)) :=
  effect_between_commit_and_update (fun _ => true) (fun _ => true) 1 0 (by decide) rfl

/-- C8: `DogPics` owns exactly one state cell, initialised to the empty
sequence, and on every invocation registers the effect whose callback
fetches the endpoint asking for three random images and, on resolution,
calls the state-update function with the payload's `message` sequence. -/
theorem dogpics_state_and_fetch_contract (images : List String) :
    (DogPics images).stateInits = [[]] ∧
    (DogPics images).effects =
      [(none, [EffectOp.log "useEffect",
        EffectOp.fetchJson (dogApiRandomEndpoint 3) "setState"
          (fun data => data.message)])] ∧
    dogApiUrl = dogApiRandomEndpoint 3 := by
  have hurl : dogApiUrl = dogApiRandomEndpoint 3 := by decide
  refine ⟨rfl, ?_, hurl⟩
  rw [← hurl]
  rfl

/-- C9: with the corrected empty dependency list, repeated state updates
setting the image list to the same sequence are idempotent with respect to
requests: after the first fetch and any number of identical updates the
request count is still one and the whole state is fixed. -/
theorem corrected_idempotent_updates (v : List String) (k : Nat) :
    (dogIdemUpdates v k).requests = 1 ∧
    (dogIdemUpdates v k).images = v ∧
    dogIdemUpdates v (k + 1) = dogIdemUpdates v k := by
  refine ⟨?_, ?_, ?_⟩
  · rw [dogIdemUpdates_eq]
  · rw [dogIdemUpdates_eq]
  · rw [dogIdemUpdates_eq, dogIdemUpdates_eq]

/-- C10: for every value of the `images` state cell, the output of
`DogPics` has exactly one `img` child per element of the sequence, in the
same order, with both the `src` and the `key` attribute equal to that
element; with the initial empty sequence the output has no children. -/
theorem dogpics_render_output (images : List String) :
    ((DogPics images).output.children).length = images.length ∧
    (∀ k (h1 : k < ((DogPics images).output.children).length)
        (h2 : k < images.length),
      ((DogPics images).output.children)[k] = Node.img images[k] images[k]) ∧
    (DogPics []).output.children = [] := by
  refine ⟨by simp [DogPics, Node.children], ?_, rfl⟩
  intro k h1 h2
  simp [DogPics, Node.children]
